import Mathlib

/-!
Formal model of the EEZ boundary-relation engine of the Al_Hadi
vessel-tracking application.

The embedded operations come from the application component
(`updateSafety`, `updateDistanceToEEZ`, `getRandomDemoLocation`) and from
`src/lib/geoutils.js` (`insidePolygon`, `nearestDistanceToLines`).
Coordinates are modelled as rationals.  The geometry primitives that the
source delegates to the third-party turf library (whose source is not part
of the repository) are modelled from the specification; each such
definition carries a doc comment starting `Modelled from the spec:`.
Kilometre distances produced by the library are abstracted as an explicit
distance-function parameter `d`, so that every statement holds for any
concrete metric the library realizes.
-/

namespace AlHadi

/-- A geographic coordinate, `turf.point([lon, lat])` in the source. -/
structure Point where
  lon : ℚ
  lat : ℚ
deriving DecidableEq

/-- One polygon ring: an ordered list of points, first and last equal when
closed. -/
abbrev PolyRing := List Point

/-- A polygon boundary: the outer shell first, then hole rings. -/
structure Boundary where
  rings : List PolyRing
deriving DecidableEq

/-- Error raised on malformed boundary input (spec section 7). -/
inductive GeoError
  | invalidBoundary
deriving DecidableEq

/-- Modelled from the spec: one crossing test of the standard ray-casting
point-in-polygon algorithm, over geographic coordinates treated as planar;
the source delegates this to `turf.booleanPointInPolygon`, whose source is
not in the repository. -/
def edgeCrosses (p a b : Point) : Bool :=
  (decide (p.lat < a.lat) != decide (p.lat < b.lat)) &&
    decide (p.lon < (b.lon - a.lon) * (p.lat - a.lat) / (b.lat - a.lat) + a.lon)

/-- The consecutive vertex pairs (segments) of a ring. -/
def ringEdges : PolyRing → List (Point × Point)
  | a :: b :: rest => (a, b) :: ringEdges (b :: rest)
  | _ => []

/-- Modelled from the spec: even-odd ray-casting membership in a single
ring (the ring-crossing test of section 4.1). -/
def inRing (p : Point) (r : PolyRing) : Bool :=
  (ringEdges r).foldl (fun acc e => if edgeCrosses p e.1 e.2 then !acc else acc) false

/-- A ring is valid when it has at least 4 points and is closed
(first point equal to last), per spec section 3. -/
def validRingB (r : PolyRing) : Bool :=
  decide (4 ≤ r.length) && (r.head? == r.getLast?)

/-- A boundary is valid when it has at least one ring and every ring is
valid, per spec sections 3 and 4.1. -/
def validBoundaryB (b : Boundary) : Bool :=
  (!b.rings.isEmpty) && b.rings.all validRingB

/-- Modelled from the spec: raw containment — inside the outer ring and
outside every hole ring (section 4.1); stands for the boolean computed by
`turf.booleanPointInPolygon`, called as `insidePolygon` in
`src/lib/geoutils.js`. -/
def containsRaw (p : Point) (b : Boundary) : Bool :=
  match b.rings with
  | [] => false
  | outer :: holes => inRing p outer && holes.all (fun h => !inRing p h)

/-- Modelled from the spec: `contains(point, boundary)` of section 4.1 —
fails with `InvalidBoundary` on a malformed boundary, otherwise the
ray-casting containment boolean. -/
def contains (p : Point) (b : Boundary) : Except GeoError Bool :=
  if validBoundaryB b then .ok (containsRaw p b) else .error .invalidBoundary

/-- The `cls` values the source stores in its safety status:
`safe` ~ Inside, `warn` ~ Unknown, `danger` ~ Outside. -/
inductive Cls
  | safe
  | warn
  | danger
deriving DecidableEq

/-- The safety status record `{label, cls}` set by `setSafety`. -/
structure Safety where
  label : String
  cls : Cls
deriving DecidableEq

/-- The observable classifier state: the safety status and the active
alert message (`alertMsg` React state; `none` = no active alert).  Map
painting and other rendering effects are out of scope per spec section 1. -/
structure AppState where
  safety : Safety
  alertMsg : Option String
deriving DecidableEq

/-- The initial React state: `safety = {label: 'Loading location...',
cls: 'warn'}`, `alertMsg = null`. -/
def initialState : AppState :=
  ⟨⟨"Loading location...", Cls.warn⟩, none⟩

/-- `updateSafety(lon, lat)` from the application source, as a transition
on the observable state, parameterized by the currently loaded EEZ data
(`eezData`, a feature list when loaded).  With no data or an empty feature
list it only sets the warn status and returns early (alert untouched);
otherwise it classifies against the first feature, setting the danger
status and the alert on an outside point, and the safe status and a
cleared alert on an inside point. -/
def updateSafety (eezData : Option (List Boundary)) (lon lat : ℚ) (st : AppState) :
    AppState :=
  match eezData with
  | none => { st with safety := ⟨"EEZ data not loaded", Cls.warn⟩ }
  | some [] => { st with safety := ⟨"EEZ data not loaded", Cls.warn⟩ }
  | some (eezFeature :: _) =>
    if !containsRaw ⟨lon, lat⟩ eezFeature then
      { safety := ⟨"Outside Indian EEZ! Alert Coast Guard", Cls.danger⟩,
        alertMsg := some "Outside Indian EEZ! Alert Coast Guard" }
    else
      { safety := ⟨"Inside Indian EEZ (Safe)", Cls.safe⟩,
        alertMsg := none }

/-- Modelled from the spec: the planar nearest point to `p` on the segment
`a`-`b` (clamped projection), section 4.1; the source delegates this to
`turf.nearestPointOnLine`, whose source is not in the repository. -/
def nearestOnSegment (p a b : Point) : Point :=
  let dx := b.lon - a.lon
  let dy := b.lat - a.lat
  let len2 := dx * dx + dy * dy
  if len2 = 0 then a
  else
    let t := max 0 (min 1 (((p.lon - a.lon) * dx + (p.lat - a.lat) * dy) / len2))
    ⟨a.lon + t * dx, a.lat + t * dy⟩

/-- The per-segment distances from `p` to a ring, under the abstract
kilometre metric `d` (standing for `turf.distance`). -/
def segDists (d : Point → Point → ℚ) (p : Point) (r : PolyRing) : List ℚ :=
  (ringEdges r).map (fun e => d p (nearestOnSegment p e.1 e.2))

/-- Modelled from the spec: `boundaryDistanceKm(point, boundary)` of
section 4.1 — the minimum, over the segments of the outer ring, of the
metric distance from the point to the planar nearest point on the segment;
fails with `InvalidBoundary` under the same conditions as `contains`.  In
the source this is the `turf.polygonToLine` / `turf.nearestPointOnLine` /
`turf.distance` pipeline of `updateDistanceToEEZ`. -/
def boundaryDistanceKm (d : Point → Point → ℚ) (p : Point) (b : Boundary) :
    Except GeoError ℚ :=
  if validBoundaryB b then
    match b.rings with
    | [] => .error .invalidBoundary
    | outer :: _ =>
      match segDists d p outer with
      | [] => .error .invalidBoundary
      | x :: xs => .ok (xs.foldl min x)
  else .error .invalidBoundary

/-- Modelled from the spec: the presentation rounding
`distKm.toFixed(2)` — round to 2 decimal places (nearest, half up). -/
def toFixed2 (q : ℚ) : ℚ :=
  ((round (q * 100) : ℤ) : ℚ) / 100

/-- `updateDistanceToEEZ(lon, lat)` from the application source: `none`
(the `null` distance) when the EEZ data is absent or has no features,
otherwise the boundary distance to the first feature, rounded for
presentation by `toFixed(2)` when storing into `distToCoast`. -/
def updateDistanceToEEZ (d : Point → Point → ℚ) (eezData : Option (List Boundary))
    (p : Point) : Option (Except GeoError ℚ) :=
  match eezData with
  | none => none
  | some [] => none
  | some (eezFeature :: _) => some ((boundaryDistanceKm d p eezFeature).map toFixed2)

/-- A demo catalog entry: a bounding box tagged with its expected relation
to the EEZ. -/
structure OceanRegion where
  minLon : ℚ
  minLat : ℚ
  maxLon : ℚ
  maxLat : ℚ
  insideEEZ : Bool
deriving DecidableEq

/-- The fixed 8-entry ocean-region catalog of `getRandomDemoLocation`. -/
def oceanRegions : List OceanRegion :=
  [⟨68, 10, 75, 22, true⟩, ⟨60, 10, 68, 22, false⟩,
   ⟨82, 10, 88, 22, true⟩, ⟨88, 10, 95, 22, false⟩,
   ⟨75, 6, 85, 10, true⟩, ⟨75, 2, 85, 6, false⟩,
   ⟨92, 8, 98, 14, true⟩, ⟨98, 8, 104, 14, false⟩]

/-- `randomInBBox` from the source, with the two `Math.random()` draws
made explicit as `u` and `v` in `[0, 1)`. -/
def randomInBBox (u v : ℚ) (r : OceanRegion) : Point :=
  ⟨r.minLon + u * (r.maxLon - r.minLon), r.minLat + v * (r.maxLat - r.minLat)⟩

/-- The `suitableRegions` filter of `getRandomDemoLocation`: catalog
entries whose tag matches the drawn target relation. -/
def suitableRegions (wantInside : Bool) : List OceanRegion :=
  oceanRegions.filter (fun r => r.insideEEZ == wantInside)

/-- The region selection of `getRandomDemoLocation`
(`suitableRegions[Math.floor(Math.random() * suitableRegions.length)]`),
with the random index draw made explicit as `k` reduced modulo the list
length; `none` when no region matches. -/
def pickRegion (wantInside : Bool) (k : ℕ) : Option OceanRegion :=
  match suitableRegions wantInside with
  | [] => none
  | r0 :: rs => some ((r0 :: rs).getD (k % (r0 :: rs).length) r0)

/-- The fixed fallback coordinate `{lon: 70, lat: 15}` of
`getRandomDemoLocation`. -/
def fallbackPoint : Point := ⟨70, 15⟩

/-- `getRandomDemoLocation` from the application source, with the random
draws made explicit: the coin flip `wantInside`, the region index `k`, and
the in-box draws `u`, `v`.  When EEZ data with at least one feature is
present the sampled point is verified with `insidePolygon` against the
first feature and the fixed fallback is returned on a mismatch (a single
attempt — the source has no retry loop); with no data the sampled point is
returned unverified. -/
def getRandomDemoLocation (wantInside : Bool) (k : ℕ) (u v : ℚ)
    (eezData : Option (List Boundary)) : Point :=
  match pickRegion wantInside k with
  | none => fallbackPoint
  | some region =>
    let p := randomInBBox u v region
    match eezData with
    | some (poly :: _) => if containsRaw p poly == wantInside then p else fallbackPoint
    | _ => p

/-- `nearestDistanceToLines(point, lineFeatures)` from
`src/lib/geoutils.js`: starts at `Infinity` (modelled as `⊤` in
`WithTop ℚ`) and takes each feature's distance when strictly smaller.  The
per-feature distance `turf.pointToLineDistance(point, f, {units:
'kilometers'})` is abstracted as the parameter `d` (its source is not in
the repository). -/
def nearestDistanceToLines {α : Type} (d : Point → α → ℚ) (p : Point)
    (fs : List α) : WithTop ℚ :=
  fs.foldl
    (fun m f => if ((d p f : ℚ) : WithTop ℚ) < m then ((d p f : ℚ) : WithTop ℚ) else m)
    ⊤

/-- The unit test square of spec section 8: corners (0,0)-(10,0)-(10,10)-(0,10). -/
def sqPolyRing : PolyRing := [⟨0, 0⟩, ⟨10, 0⟩, ⟨10, 10⟩, ⟨0, 10⟩, ⟨0, 0⟩]

/-- The test square as a one-ring boundary. -/
def sqB : Boundary := ⟨[sqPolyRing]⟩

/-- A concrete instantiation of the abstract metric parameter: planar
squared distance (any metric works for the structural statements; this one
keeps evaluation rational). -/
def sqPlanar (p q : Point) : ℚ :=
  (p.lon - q.lon) ^ 2 + (p.lat - q.lat) ^ 2

/-! ### Helper lemmas -/

/-- A left fold of `min` lands on its seed or on a list element. -/
theorem foldlMin_mem {α : Type} [LinearOrder α] (xs : List α) :
    ∀ x : α, xs.foldl min x ∈ x :: xs := by
  induction xs with
  | nil => intro x; simp
  | cons y ys ih =>
    intro x
    have h := ih (min x y)
    rw [List.foldl_cons]
    rcases List.mem_cons.mp h with h1 | h1
    · rcases min_choice x y with h2 | h2
      · rw [h1, h2]; exact List.mem_cons_self _ _
      · rw [h1, h2]; exact List.mem_cons_of_mem _ (List.mem_cons_self _ _)
    · exact List.mem_cons_of_mem _ (List.mem_cons_of_mem _ h1)

/-- A left fold of `min` is a lower bound of its seed and every element. -/
theorem foldlMin_le {α : Type} [LinearOrder α] (xs : List α) :
    ∀ x : α, ∀ y ∈ x :: xs, xs.foldl min x ≤ y := by
  induction xs with
  | nil =>
    intro x y hy
    rw [List.mem_singleton] at hy
    subst hy
    exact le_refl _
  | cons z zs ih =>
    intro x y hy
    rw [List.foldl_cons]
    rcases List.mem_cons.mp hy with rfl | hy1
    · exact le_trans (ih (min y z) (min y z) (List.mem_cons_self _ _)) (min_le_left _ _)
    · rcases List.mem_cons.mp hy1 with rfl | hy2
      · exact le_trans (ih (min x y) (min x y) (List.mem_cons_self _ _)) (min_le_right _ _)
      · exact ih (min x z) y (List.mem_cons_of_mem _ hy2)

/-- `List.getD` returns an element of the list whenever the default is one. -/
theorem getD_mem_of_mem {α : Type} (l : List α) (n : ℕ) (d : α) (hd : d ∈ l) :
    l.getD n d ∈ l := by
  rw [List.getD_eq_getD_get?]
  cases hg : l.get? n with
  | none => simpa [hg] using hd
  | some x => simpa [hg] using List.get?_mem hg

/-- `pickRegion` always succeeds: both halves of the catalog are non-empty. -/
theorem pickRegion_isSome (w : Bool) (k : ℕ) :
    ∃ region, pickRegion w k = some region := by
  cases w <;> exact ⟨_, rfl⟩

/-- A region picked by `pickRegion` comes from the filtered catalog. -/
theorem pickRegion_mem (w : Bool) (k : ℕ) (region : OceanRegion)
    (hr : pickRegion w k = some region) :
    region ∈ suitableRegions w := by
  rw [pickRegion] at hr
  cases hs : suitableRegions w with
  | nil => rw [hs] at hr; exact absurd hr (by simp)
  | cons r0 rs =>
    rw [hs] at hr
    simp only [Option.some.injEq] at hr
    subst hr
    exact getD_mem_of_mem _ _ _ (List.mem_cons_self _ _)

/-! ### The claims -/

/-- C3: with the boundary data absent or holding no features, the safety
classifier returns the not-loaded warn state and the distance computation
returns `none`; both are total functions of their inputs, so neither can
raise. -/
theorem C3_boundary_unavailable (d : Point → Point → ℚ) (p : Point) (lon lat : ℚ)
    (st : AppState) :
    (updateSafety none lon lat st).safety = ⟨"EEZ data not loaded", Cls.warn⟩ ∧
    (updateSafety (some []) lon lat st).safety = ⟨"EEZ data not loaded", Cls.warn⟩ ∧
    updateDistanceToEEZ d none p = none ∧
    updateDistanceToEEZ d (some []) p = none :=
  ⟨rfl, rfl, rfl, rfl⟩

/-- C7: `contains` fails with `InvalidBoundary` whenever the boundary has
no ring, or some ring has fewer than 4 points, or some ring is not closed. -/
theorem C7_invalid_boundary (p : Point) (b : Boundary)
    (h : b.rings = [] ∨ ∃ r ∈ b.rings, r.length < 4 ∨ r.head? ≠ r.getLast?) :
    contains p b = .error .invalidBoundary := by
  have hvb : ¬ validBoundaryB b = true := by
    rcases h with h | ⟨r, hr, hcond⟩
    · simp [validBoundaryB, h]
    · rw [validBoundaryB]
      have hall : b.rings.all validRingB = false := by
        rw [List.all_eq_false]
        refine ⟨r, hr, ?_⟩
        rw [validRingB]
        rcases hcond with hlen | hne
        · simp only [Bool.and_eq_true, decide_eq_true_eq, not_and]
          intro h4
          omega
        · simp only [Bool.and_eq_true, beq_iff_eq, not_and]
          intro _
          exact hne
      simp [hall]
  rw [contains, if_neg hvb]

/-- C7 witness: a boundary whose single ring has exactly 3 points makes
`contains` fail with `InvalidBoundary`. -/
theorem C7_invalid_boundary_witness :
    contains ⟨1, 1⟩ ⟨[[⟨0, 0⟩, ⟨4, 0⟩, ⟨0, 0⟩]]⟩ = .error .invalidBoundary :=
  C7_invalid_boundary ⟨1, 1⟩ ⟨[[⟨0, 0⟩, ⟨4, 0⟩, ⟨0, 0⟩]]⟩
    (Or.inr ⟨[⟨0, 0⟩, ⟨4, 0⟩, ⟨0, 0⟩], List.mem_cons_self _ _, Or.inl (by decide)⟩)

/-- C5: with EEZ data holding at least one feature, every point the demo
sampler returns either satisfies the requested containment relation
against the first feature, or is the fixed fallback coordinate, the latter
exactly when the sampled point failed verification. -/
theorem C5_sampler_verified (wantInside : Bool) (k : ℕ) (u v : ℚ)
    (poly : Boundary) (rest : List Boundary) :
    ∃ region, pickRegion wantInside k = some region ∧
      ((getRandomDemoLocation wantInside k u v (some (poly :: rest)) =
          randomInBBox u v region ∧
        containsRaw (randomInBBox u v region) poly = wantInside) ∨
       (getRandomDemoLocation wantInside k u v (some (poly :: rest)) = fallbackPoint ∧
        containsRaw (randomInBBox u v region) poly ≠ wantInside)) := by
  obtain ⟨region, hr⟩ := pickRegion_isSome wantInside k
  refine ⟨region, hr, ?_⟩
  cases hc : containsRaw (randomInBBox u v region) poly == wantInside
  · refine Or.inr ⟨?_, ?_⟩
    · simp only [getRandomDemoLocation, hr, hc, Bool.false_eq_true, if_false]
    · intro h
      rw [h, beq_self_eq_true] at hc
      exact Bool.false_ne_true hc.symm
  · refine Or.inl ⟨?_, ?_⟩
    · simp only [getRandomDemoLocation, hr, hc, if_true]
    · exact eq_of_beq hc

/-- C6: the demo sampler is a total function that always yields a point:
on every input it returns either the point sampled from the selected
catalog region (the single verification attempt of the source — there is
no retry loop) or the fixed fallback coordinate; no input makes it fail. -/
theorem C6_sampler_total (wantInside : Bool) (k : ℕ) (u v : ℚ)
    (eezData : Option (List Boundary)) :
    getRandomDemoLocation wantInside k u v eezData = fallbackPoint ∨
    ∃ region, pickRegion wantInside k = some region ∧
      getRandomDemoLocation wantInside k u v eezData = randomInBBox u v region := by
  obtain ⟨region, hr⟩ := pickRegion_isSome wantInside k
  rcases eezData with _ | ⟨_ | ⟨poly, rest⟩⟩
  · exact Or.inr ⟨region, hr, by simp only [getRandomDemoLocation, hr]⟩
  · exact Or.inr ⟨region, hr, by simp only [getRandomDemoLocation, hr]⟩
  · cases hc : containsRaw (randomInBBox u v region) poly == wantInside
    · exact Or.inl (by simp only [getRandomDemoLocation, hr, hc, Bool.false_eq_true, if_false])
    · exact Or.inr ⟨region, hr, by simp only [getRandomDemoLocation, hr, hc, if_true]⟩

/-- C1 counterexample: at the point (5,5) inside the test square,
`contains` is true and the classifier label is
"Inside Indian EEZ (Safe)", not the claimed "Inside EEZ (Safe)". -/
theorem C1_counterexample :
    contains ⟨5, 5⟩ sqB = .ok true ∧
    (updateSafety (some [sqB]) 5 5 initialState).safety.label =
      "Inside Indian EEZ (Safe)" ∧
    (updateSafety (some [sqB]) 5 5 initialState).safety.label ≠
      "Inside EEZ (Safe)" := by
  refine ⟨?_, ?_, ?_⟩
  · norm_num [contains, validBoundaryB, validRingB, containsRaw, inRing, ringEdges,
      edgeCrosses, sqB, sqPolyRing, List.foldl, List.all]
  · norm_num [updateSafety, containsRaw, inRing, ringEdges, edgeCrosses, sqB,
      sqPolyRing, initialState, List.foldl, List.all]
  · norm_num [updateSafety, containsRaw, inRing, ringEdges, edgeCrosses, sqB,
      sqPolyRing, initialState, List.foldl, List.all]
    decide

/-- C1 (amended): with a non-empty feature list whose first boundary is
valid, the classifier applies `contains` to the first feature and yields
the Inside state with label "Inside Indian EEZ (Safe)" on true and the
Outside state with label "Outside Indian EEZ! Alert Coast Guard" on
false. -/
theorem C1_classifier_labels (p : Point) (b : Boundary) (rest : List Boundary)
    (st : AppState) (hv : validBoundaryB b = true) :
    (contains p b = .ok true →
      updateSafety (some (b :: rest)) p.lon p.lat st =
        ⟨⟨"Inside Indian EEZ (Safe)", Cls.safe⟩, none⟩) ∧
    (contains p b = .ok false →
      updateSafety (some (b :: rest)) p.lon p.lat st =
        ⟨⟨"Outside Indian EEZ! Alert Coast Guard", Cls.danger⟩,
          some "Outside Indian EEZ! Alert Coast Guard"⟩) := by
  obtain ⟨plon, plat⟩ := p
  have hc : contains ⟨plon, plat⟩ b = .ok (containsRaw ⟨plon, plat⟩ b) := by
    rw [contains, if_pos hv]
  constructor <;> intro h <;> rw [hc] at h <;>
    simp only [Except.ok.injEq] at h <;>
    simp [updateSafety, h]

/-- C1 witness: the amended classifier contract evaluated at (5,5) inside
the test square. -/
theorem C1_classifier_labels_witness :
    updateSafety (some [sqB]) 5 5 initialState =
      ⟨⟨"Inside Indian EEZ (Safe)", Cls.safe⟩, none⟩ :=
  (C1_classifier_labels ⟨5, 5⟩ sqB [] initialState
      (by norm_num [validBoundaryB, validRingB, sqB, sqPolyRing, List.all])).1
    (by norm_num [contains, validBoundaryB, validRingB, containsRaw, inRing, ringEdges,
      edgeCrosses, sqB, sqPolyRing, List.foldl, List.all])

/-- C2 counterexample: in the call sequence Outside (alert raised), then
Unknown (data absent, alert left in place), then Outside again, the final
step is an Unknown-to-Outside classification edge yet changes nothing —
no new alert effect is produced, because the alert survived the Unknown
step — refuting "exactly once per such edge". -/
theorem C2_counterexample :
    (updateSafety (some [sqB]) 20 20 initialState).safety.cls = Cls.danger ∧
    (updateSafety none 20 20
        (updateSafety (some [sqB]) 20 20 initialState)).safety.cls = Cls.warn ∧
    (updateSafety (some [sqB]) 20 20
        (updateSafety none 20 20
          (updateSafety (some [sqB]) 20 20 initialState))).safety.cls = Cls.danger ∧
    (updateSafety none 20 20
        (updateSafety (some [sqB]) 20 20 initialState)).alertMsg ≠ none ∧
    (updateSafety (some [sqB]) 20 20
        (updateSafety none 20 20
          (updateSafety (some [sqB]) 20 20 initialState))).alertMsg =
      (updateSafety none 20 20
        (updateSafety (some [sqB]) 20 20 initialState)).alertMsg := by
  norm_num [updateSafety, containsRaw, inRing, ringEdges, edgeCrosses, sqB,
    sqPolyRing, initialState, List.foldl, List.all]
  decide

/-- C2 (amended): the alert state becomes active exactly on a
classification into Outside while no alert is active; re-running the same
classification is idempotent (no further observable effect); a
classification into Inside clears any active alert; and a classification
into Unknown leaves the alert untouched (so an Unknown-to-Outside edge
whose alert survived an earlier Outside raises nothing new). -/
theorem C2_alert_contract :
    (∀ (e : Option (List Boundary)) (lon lat : ℚ) (st : AppState),
      (st.alertMsg = none ∧ (updateSafety e lon lat st).alertMsg ≠ none) ↔
        ((updateSafety e lon lat st).safety.cls = Cls.danger ∧ st.alertMsg = none)) ∧
    (∀ (e : Option (List Boundary)) (lon lat : ℚ) (st : AppState),
      updateSafety e lon lat (updateSafety e lon lat st) = updateSafety e lon lat st) ∧
    (∀ (e : Option (List Boundary)) (lon lat : ℚ) (st : AppState),
      (updateSafety e lon lat st).safety.cls = Cls.safe →
        (updateSafety e lon lat st).alertMsg = none) ∧
    (∀ (e : Option (List Boundary)) (lon lat : ℚ) (st : AppState),
      (updateSafety e lon lat st).safety.cls = Cls.warn →
        (updateSafety e lon lat st).alertMsg = st.alertMsg) := by
  refine ⟨?_, ?_, ?_, ?_⟩ <;> intro e lon lat st <;>
    rcases e with _ | ⟨_ | ⟨f, fs⟩⟩
  all_goals
    first
      | (cases hcb : containsRaw ⟨lon, lat⟩ f <;> simp [updateSafety, hcb])
      | simp [updateSafety]

/-- C2 witness: the amended alert contract evaluated concretely — a
classification into Inside at (5,5) clears an active alert, and a
classification into Unknown preserves it. -/
theorem C2_alert_contract_witness :
    (updateSafety (some [sqB]) 5 5
        ⟨⟨"Outside Indian EEZ! Alert Coast Guard", Cls.danger⟩,
          some "Outside Indian EEZ! Alert Coast Guard"⟩).alertMsg = none ∧
    (updateSafety none 5 5
        ⟨⟨"Outside Indian EEZ! Alert Coast Guard", Cls.danger⟩,
          some "Outside Indian EEZ! Alert Coast Guard"⟩).alertMsg =
      some "Outside Indian EEZ! Alert Coast Guard" :=
  ⟨C2_alert_contract.2.2.1 (some [sqB]) 5 5
      ⟨⟨"Outside Indian EEZ! Alert Coast Guard", Cls.danger⟩,
        some "Outside Indian EEZ! Alert Coast Guard"⟩
      (by norm_num [updateSafety, containsRaw, inRing, ringEdges, edgeCrosses, sqB,
        sqPolyRing, List.foldl, List.all]),
    C2_alert_contract.2.2.2 none 5 5
      ⟨⟨"Outside Indian EEZ! Alert Coast Guard", Cls.danger⟩,
        some "Outside Indian EEZ! Alert Coast Guard"⟩
      (by simp [updateSafety])⟩

/-- C4 (spec-modelled): for a valid boundary the distance result is the
minimum over the segments of the outer ring only: it is attained on an
outer-ring segment distance, bounds every outer-ring segment distance from
below, and dropping the hole rings leaves the value unchanged. -/
theorem C4_distance_outer_ring (d : Point → Point → ℚ) (p : Point) (b : Boundary)
    (outer : PolyRing) (holes : List PolyRing)
    (hb : b.rings = outer :: holes) (hv : validBoundaryB b = true) :
    ∃ q : ℚ, boundaryDistanceKm d p b = .ok q ∧
      q ∈ segDists d p outer ∧ (∀ y ∈ segDists d p outer, q ≤ y) ∧
      boundaryDistanceKm d p ⟨[outer]⟩ = .ok q := by
  have hv' := hv
  rw [validBoundaryB, hb] at hv'
  simp only [List.isEmpty_cons, Bool.not_false, Bool.true_and, List.all_cons,
    Bool.and_eq_true] at hv'
  obtain ⟨houter, hholes⟩ := hv'
  have hlen : 4 ≤ outer.length := by
    have h1 := houter
    rw [validRingB, Bool.and_eq_true, decide_eq_true_eq] at h1
    exact h1.1
  obtain ⟨a, t, rfl⟩ : ∃ a t, outer = a :: t := by
    cases outer with
    | nil => exact absurd hlen (by norm_num)
    | cons a t => exact ⟨a, t, rfl⟩
  obtain ⟨a2, t2, rfl⟩ : ∃ a2 t2, t = a2 :: t2 := by
    cases t with
    | nil => exact absurd hlen (by norm_num [List.length])
    | cons a2 t2 => exact ⟨a2, t2, rfl⟩
  have hsd : segDists d p (a :: a2 :: t2) =
      d p (nearestOnSegment p a a2) ::
        (ringEdges (a2 :: t2)).map (fun e => d p (nearestOnSegment p e.1 e.2)) := by
    simp only [segDists, ringEdges, List.map_cons]
  refine ⟨((ringEdges (a2 :: t2)).map
      (fun e => d p (nearestOnSegment p e.1 e.2))).foldl min
      (d p (nearestOnSegment p a a2)), ?_, ?_, ?_, ?_⟩
  · simp only [boundaryDistanceKm, hv, if_true, hb, segDists, ringEdges, List.map_cons]
  · rw [hsd]
    exact foldlMin_mem _ _
  · intro y hy
    rw [hsd] at hy
    exact foldlMin_le _ _ y hy
  · have hv1 : validBoundaryB ⟨[a :: a2 :: t2]⟩ = true := by
      simp [validBoundaryB, houter]
    simp only [boundaryDistanceKm, hv1, if_true, segDists, ringEdges, List.map_cons]

/-- C4 witness: the outer-ring distance characterization evaluated on the
test square at (5, 11) under the planar squared metric. -/
theorem C4_distance_outer_ring_witness :
    ∃ q : ℚ, boundaryDistanceKm sqPlanar ⟨5, 11⟩ sqB = .ok q ∧
      q ∈ segDists sqPlanar ⟨5, 11⟩ sqPolyRing ∧
      (∀ y ∈ segDists sqPlanar ⟨5, 11⟩ sqPolyRing, q ≤ y) ∧
      boundaryDistanceKm sqPlanar ⟨5, 11⟩ ⟨[sqPolyRing]⟩ = .ok q :=
  C4_distance_outer_ring sqPlanar ⟨5, 11⟩ sqB sqPolyRing [] rfl
    (by norm_num [validBoundaryB, validRingB, sqB, sqPolyRing, List.all])

/-- C8 (spec-modelled): the distance pipeline keeps full precision — two
points of the test square whose distances differ by less than 0.005 get
distinct values from `boundaryDistanceKm` — while the stored
`updateDistanceToEEZ` results, rounded by `toFixed(2)` at the presentation
hand-off, coincide. -/
theorem C8_full_precision :
    (∃ q1 q2 : ℚ,
      boundaryDistanceKm sqPlanar ⟨5, 11 + 1 / 1000⟩ sqB = .ok q1 ∧
      boundaryDistanceKm sqPlanar ⟨5, 11 + 2 / 1000⟩ sqB = .ok q2 ∧
      q1 ≠ q2 ∧ |q1 - q2| < 5 / 1000 ∧ toFixed2 q1 = toFixed2 q2) ∧
    updateDistanceToEEZ sqPlanar (some [sqB]) ⟨5, 11 + 1 / 1000⟩ =
      updateDistanceToEEZ sqPlanar (some [sqB]) ⟨5, 11 + 2 / 1000⟩ := by
  constructor
  · refine ⟨1002001 / 1000000, 1004004 / 1000000, ?_, ?_, by norm_num,
      by rw [abs_lt]; constructor <;> norm_num, ?_⟩
    · norm_num [boundaryDistanceKm, validBoundaryB, validRingB, segDists,
        nearestOnSegment, ringEdges, sqB, sqPolyRing, sqPlanar, List.map, List.foldl,
        List.all, min_def, max_def]
    · norm_num [boundaryDistanceKm, validBoundaryB, validRingB, segDists,
        nearestOnSegment, ringEdges, sqB, sqPolyRing, sqPlanar, List.map, List.foldl,
        List.all, min_def, max_def]
    · norm_num [toFixed2, round_eq]
  · norm_num [updateDistanceToEEZ, boundaryDistanceKm, validBoundaryB, validRingB,
      segDists, nearestOnSegment, ringEdges, sqB, sqPolyRing, sqPlanar, List.map,
      List.foldl, List.all, min_def, max_def, toFixed2, round_eq, Except.map]

/-- C9: with the boundary data absent or empty, the sampler skips
verification and returns the sampled point itself, which lies inside the
bounding box of a catalog region tagged with the drawn relation. -/
theorem C9_no_boundary_bbox (wantInside : Bool) (k : ℕ) (u v : ℚ)
    (eezData : Option (List Boundary)) (he : eezData = none ∨ eezData = some [])
    (hu0 : 0 ≤ u) (hu1 : u ≤ 1) (hv0 : 0 ≤ v) (hv1 : v ≤ 1) :
    ∃ region ∈ oceanRegions, region.insideEEZ = wantInside ∧
      getRandomDemoLocation wantInside k u v eezData = randomInBBox u v region ∧
      region.minLon ≤ (randomInBBox u v region).lon ∧
      (randomInBBox u v region).lon ≤ region.maxLon ∧
      region.minLat ≤ (randomInBBox u v region).lat ∧
      (randomInBBox u v region).lat ≤ region.maxLat := by
  obtain ⟨region, hr⟩ := pickRegion_isSome wantInside k
  have hmem := pickRegion_mem wantInside k region hr
  have htag : region.insideEEZ = wantInside := by
    have h := List.of_mem_filter hmem
    simpa [beq_iff_eq] using h
  have hocean : region ∈ oceanRegions := List.mem_of_mem_filter hmem
  have hspan : region.minLon ≤ region.maxLon ∧ region.minLat ≤ region.maxLat := by
    have h := hocean
    simp only [oceanRegions] at h
    fin_cases h <;> exact ⟨by norm_num, by norm_num⟩
  refine ⟨region, hocean, htag, ?_, ?_, ?_, ?_, ?_⟩
  · rcases he with rfl | rfl
    · simp only [getRandomDemoLocation, hr]
    · simp only [getRandomDemoLocation, hr]
  · have h1 : 0 ≤ u * (region.maxLon - region.minLon) :=
      mul_nonneg hu0 (by linarith [hspan.1])
    simp only [randomInBBox]
    linarith
  · have h2 : u * (region.maxLon - region.minLon) ≤ region.maxLon - region.minLon :=
      mul_le_of_le_one_left (by linarith [hspan.1]) hu1
    simp only [randomInBBox]
    linarith
  · have h3 : 0 ≤ v * (region.maxLat - region.minLat) :=
      mul_nonneg hv0 (by linarith [hspan.2])
    simp only [randomInBBox]
    linarith
  · have h4 : v * (region.maxLat - region.minLat) ≤ region.maxLat - region.minLat :=
      mul_le_of_le_one_left (by linarith [hspan.2]) hv1
    simp only [randomInBBox]
    linarith

/-- C9 witness: the unverified-sampling contract evaluated at the draws
`wantInside = true`, `k = 0`, `u = v = 0` with no boundary data. -/
theorem C9_no_boundary_bbox_witness :
    ∃ region ∈ oceanRegions, region.insideEEZ = true ∧
      getRandomDemoLocation true 0 0 0 none = randomInBBox 0 0 region ∧
      region.minLon ≤ (randomInBBox 0 0 region).lon ∧
      (randomInBBox 0 0 region).lon ≤ region.maxLon ∧
      region.minLat ≤ (randomInBBox 0 0 region).lat ∧
      (randomInBBox 0 0 region).lat ≤ region.maxLat :=
  C9_no_boundary_bbox true 0 0 0 none (Or.inl rfl) (by norm_num) (by norm_num)
    (by norm_num) (by norm_num)

/-- C10: `nearestDistanceToLines` is Infinity (`⊤`) on an empty feature
list, never failing there; on a non-empty list it is the minimum of the
per-feature distances, attained on some feature and bounding all of them;
and it is non-negative whenever the per-feature metric is. -/
theorem C10_nearest_lines {α : Type} (d : Point → α → ℚ) (p : Point) (fs : List α)
    (hd : ∀ f ∈ fs, 0 ≤ d p f) :
    nearestDistanceToLines d p ([] : List α) = (⊤ : WithTop ℚ) ∧
    (∀ g gs, fs = g :: gs → ∃ f0 ∈ fs,
      nearestDistanceToLines d p fs = ((d p f0 : ℚ) : WithTop ℚ) ∧
      ∀ f ∈ fs, ((d p f0 : ℚ) : WithTop ℚ) ≤ ((d p f : ℚ) : WithTop ℚ)) ∧
    0 ≤ nearestDistanceToLines d p fs := by
  have hstep : ∀ (m : WithTop ℚ) (q : ℚ),
      (if (q : WithTop ℚ) < m then ((q : ℚ) : WithTop ℚ) else m) =
        min m ((q : ℚ) : WithTop ℚ) := by
    intro m q
    rcases lt_or_ge ((q : ℚ) : WithTop ℚ) m with h | h
    · rw [if_pos h, min_eq_right h.le]
    · rw [if_neg (not_lt.mpr h), min_eq_left h]
  have hfold : ∀ (l : List α) (m : WithTop ℚ),
      l.foldl (fun m f =>
          if ((d p f : ℚ) : WithTop ℚ) < m then ((d p f : ℚ) : WithTop ℚ) else m) m =
        (l.map (fun f => ((d p f : ℚ) : WithTop ℚ))).foldl min m := by
    intro l
    induction l with
    | nil => intro m; rfl
    | cons g gs ih =>
      intro m
      rw [List.foldl_cons, List.map_cons, List.foldl_cons, hstep, ih]
  have hchar : ∀ (g : α) (gs : List α), ∃ f0 ∈ g :: gs,
      nearestDistanceToLines d p (g :: gs) = ((d p f0 : ℚ) : WithTop ℚ) ∧
      ∀ f ∈ g :: gs, ((d p f0 : ℚ) : WithTop ℚ) ≤ ((d p f : ℚ) : WithTop ℚ) := by
    intro g gs
    have hnd : nearestDistanceToLines d p (g :: gs) =
        (gs.map (fun f => ((d p f : ℚ) : WithTop ℚ))).foldl min
          ((d p g : ℚ) : WithTop ℚ) := by
      rw [nearestDistanceToLines, hfold, List.map_cons, List.foldl_cons,
        min_eq_right le_top]
    have hmem := foldlMin_mem (gs.map fun f => ((d p f : ℚ) : WithTop ℚ))
      ((d p g : ℚ) : WithTop ℚ)
    have hmem2 : nearestDistanceToLines d p (g :: gs) ∈
        (g :: gs).map (fun f => ((d p f : ℚ) : WithTop ℚ)) := by
      rw [List.map_cons, hnd]
      exact hmem
    obtain ⟨f0, hf0mem, hf0eq⟩ := List.mem_map.mp hmem2
    refine ⟨f0, hf0mem, hf0eq.symm, ?_⟩
    intro f hf
    rw [hf0eq, hnd]
    have hmf : ((d p f : ℚ) : WithTop ℚ) ∈
        (g :: gs).map (fun f => ((d p f : ℚ) : WithTop ℚ)) :=
      List.mem_map_of_mem _ hf
    rw [List.map_cons] at hmf
    exact foldlMin_le _ _ _ hmf
  refine ⟨rfl, ?_, ?_⟩
  · rintro g gs rfl
    exact hchar g gs
  · cases fs with
    | nil => exact le_top
    | cons g gs =>
      obtain ⟨f0, hf0mem, heq, _⟩ := hchar g gs
      rw [heq, ← WithTop.coe_zero]
      exact WithTop.coe_le_coe.mpr (hd f0 hf0mem)

/-- C10 witness: the fold contract evaluated on a concrete two-feature
list with a non-negative metric. -/
theorem C10_nearest_lines_witness :
    0 ≤ nearestDistanceToLines (fun _ (n : ℕ) => (n : ℚ)) ⟨0, 0⟩ [3, 2] :=
  (C10_nearest_lines (fun _ (n : ℕ) => (n : ℚ)) ⟨0, 0⟩ [3, 2]
    (fun f _ => Nat.cast_nonneg f)).2.2

end AlHadi
